import Mathlib

/-!
Verification development for the Vocilia ai-evaluator processors.

This file gives a shallow embedding in Lean 4 of the two Python modules
`packages/ai-evaluator/src/tts_processor.py` (class `TTSProcessor`) and
`packages/ai-evaluator/src/whisperx_processor.py` (class `WhisperXProcessor`),
together with theorems settling the frozen claims about them.

Modelling conventions:
* Python `float` arithmetic is embedded as exact rational arithmetic (`ℚ`);
  the constants 0.3, 0.7, 1.1, 0.02, 0.5 of the source appear as the
  rationals 3/10, 7/10, 11/10, 1/50, 1/2.
* Byte strings are embedded by their length where only the length is
  inspected (`len(audio_buffer)`), or as `List ℕ` where the bytes flow
  through unchanged.
* External collaborators (the `piper`/`espeak`/`say` binaries, `librosa`,
  the faster-whisper model, `scipy.signal.sosfilt`) are oracle parameters:
  functions or values supplied to the embedded code, never computed by it.
* Exceptions are embedded with `Except String`, carrying `str(e)`.
* Wall-clock fields of the Python result dictionaries (`duration`,
  `detection_duration`, `estimated_audio_duration`, `audio_duration`) and
  logging calls are not modelled: no claim mentions them.
* The Unicode fragment of Python's `str.upper`/`str.lower`/`str.isupper`/
  `str.islower` is modelled on the alphabet actually reached by this code:
  ASCII letters plus the Swedish letters å/ä/ö and é, via a finite
  case-mapping table.
-/

/-! ## Python string primitives -/

/-- Case-mapping table (lowercase, uppercase) for the alphabet fragment used
by the sources: ASCII `a`-`z` plus `å`, `ä`, `ö`, `é`. -/
def pyUpperTable : List (Char × Char) :=
  [('a', 'A'), ('b', 'B'), ('c', 'C'), ('d', 'D'), ('e', 'E'), ('f', 'F'),
   ('g', 'G'), ('h', 'H'), ('i', 'I'), ('j', 'J'), ('k', 'K'), ('l', 'L'),
   ('m', 'M'), ('n', 'N'), ('o', 'O'), ('p', 'P'), ('q', 'Q'), ('r', 'R'),
   ('s', 'S'), ('t', 'T'), ('u', 'U'), ('v', 'V'), ('w', 'W'), ('x', 'X'),
   ('y', 'Y'), ('z', 'Z'), ('å', 'Å'), ('ä', 'Ä'), ('ö', 'Ö'), ('é', 'É')]

/-- Python `c.islower()` on the modelled alphabet: `c` has an uppercase
counterpart in the table. -/
def pyIsLower (c : Char) : Bool := pyUpperTable.any (fun p => p.1 == c)

/-- Python `c.isupper()` on the modelled alphabet: `c` is the uppercase
counterpart of some table entry. -/
def pyIsUpper (c : Char) : Bool := pyUpperTable.any (fun p => p.2 == c)

/-- Python `c.upper()` on the modelled alphabet. -/
def pyCharUpper (c : Char) : Char :=
  ((pyUpperTable.find? (fun p => p.1 == c)).map Prod.snd).getD c

/-- Python `c.lower()` on the modelled alphabet. -/
def pyCharLower (c : Char) : Char :=
  ((pyUpperTable.find? (fun p => p.2 == c)).map Prod.fst).getD c

/-- Python `text.lower()` (character-wise on the modelled alphabet). -/
def pyToLower (l : List Char) : List Char := l.map pyCharLower

/-- Accumulator-passing core of Python `str.split()` with no arguments:
splits on runs of whitespace and discards empty fields.  `acc` holds the
current word reversed. -/
def pyWordsAux : List Char → List Char → List (List Char)
  | acc, [] => if acc = [] then [] else [acc.reverse]
  | acc, c :: cs =>
    if c.isWhitespace then
      if acc = [] then pyWordsAux [] cs else acc.reverse :: pyWordsAux [] cs
    else
      pyWordsAux (c :: acc) cs

/-- Python `text.split()` (no separator argument). -/
def pyWords (l : List Char) : List (List Char) := pyWordsAux [] l

/-- Python `" ".join(words)`. -/
def joinWords : List (List Char) → List Char
  | [] => []
  | [w] => w
  | w :: ws => w ++ ' ' :: joinWords ws

/-- Python `text.strip()` with no arguments: drop leading and trailing
whitespace. -/
def pyStripChars (l : List Char) : List Char :=
  (((l.dropWhile Char.isWhitespace).reverse).dropWhile Char.isWhitespace).reverse

/-- The first character, when present, is not whitespace. -/
def headNotWs : List Char → Bool
  | [] => true
  | c :: _ => !c.isWhitespace

/-- The last character, when present, is not whitespace. -/
def lastNotWs (l : List Char) : Bool := headNotWs l.reverse

/-- No two adjacent characters are both whitespace. -/
def noDoubleWs : List Char → Bool
  | a :: b :: rest => (!(a.isWhitespace && b.isWhitespace)) && noDoubleWs (b :: rest)
  | _ => true

/-! ## TTS processor (`tts_processor.py`)

`TTSProcessor.__init__` probes external binaries with `subprocess.run`;
a probe is modelled by its observable outcome. -/

/-- Outcome of `subprocess.run([binary, flag], capture_output=True, timeout=5)`:
the process exits with a return code, the 5s timeout fires
(`subprocess.TimeoutExpired`), or the binary is missing (`FileNotFoundError`). -/
inductive ProbeResult where
  | exits (returncode : ℤ)
  | timesOut
  | notFound
deriving DecidableEq

/-- The external environment seen by `TTSProcessor._initialize_provider`:
the probe outcomes for the `piper`, `espeak` and `say` binaries. -/
structure TTSEnv where
  piper : ProbeResult
  espeak : ProbeResult
  say : ProbeResult

/-- A probed binary counts as working when the probe exited with code 0. -/
def probeOk : ProbeResult → Bool
  | .exits r => r == 0
  | _ => false

/-- `TTSProcessor._initialize_system` (lines 91-104): on a zero exit of
`say --version` the provider is kept; otherwise the caught exception
(timeout, missing binary, or the raised `RuntimeError` on a non-zero exit)
ends in `raise RuntimeError("No TTS providers available")`. -/
def initialize_system (env : TTSEnv) (current : String) : Except String String :=
  if probeOk env.say then .ok current else .error "No TTS providers available"

/-- `TTSProcessor._initialize_espeak` (lines 75-89): on failure of the
`espeak --version` probe the provider is set to `"system"` and
`_initialize_system` runs. -/
def initialize_espeak (env : TTSEnv) (current : String) : Except String String :=
  if probeOk env.espeak then .ok current else initialize_system env "system"

/-- `TTSProcessor._initialize_piper` (lines 59-73): on failure of the
`piper --help` probe the provider is set to `"espeak"` and
`_initialize_espeak` runs. -/
def initialize_piper (env : TTSEnv) (current : String) : Except String String :=
  if probeOk env.piper then .ok current else initialize_espeak env "espeak"

/-- `TTSProcessor._initialize_provider` (lines 48-57), returning the final
value of `self.provider` after construction, or the constructor's
exception message. -/
def initialize_provider (env : TTSEnv) (provider : String) : Except String String :=
  if provider = "piper" then initialize_piper env "piper"
  else if provider = "espeak" then initialize_espeak env "espeak"
  else if provider = "system" then initialize_system env "system"
  else .error ("Unsupported TTS provider: " ++ provider)

/-- Abbreviation replacement table of `_prepare_text_for_swedish`
(lines 186-192), in Python dict insertion order. -/
def ttsReplacements : List (String × String) :=
  [("kr", "kronor"), ("st", "stycken"), ("osv", "och så vidare"),
   ("t.ex", "till exempel"), ("ca", "cirka")]

/-- `TTSProcessor._prepare_text_for_swedish` (lines 171-198): append a full
stop when the text does not already end in `.`, `!` or `?`, then expand the
abbreviations of `ttsReplacements` in their ` abbr ` and ` abbr.` forms. -/
def prepare_text_for_swedish (text : String) : String :=
  let text := if text.endsWith "." || text.endsWith "!" || text.endsWith "?"
    then text else text ++ "."
  ttsReplacements.foldl
    (fun t p =>
      (t.replace (" " ++ p.1 ++ " ") (" " ++ p.2 ++ " ")).replace
        (" " ++ p.1 ++ ".") (" " ++ p.2 ++ "."))
    text

/-- Result dictionary of `TTSProcessor.synthesize`.  Wall-clock timing keys
and the echo keys `sample_rate`/`channels`/`format`/`voice` are not
modelled; `word_count` is absent (`none`) on the error dictionary of
lines 163-169. -/
structure SynthResult where
  audio_data : List ℕ
  text : String
  provider : String
  word_count : Option ℕ
  error : Option String
deriving DecidableEq

/-- `TTSProcessor.synthesize` (lines 106-169).  `helper provider cleaned`
is the oracle for the provider-specific `_synthesize_with_*` call: the
audio bytes it returns, or the message of the exception it raises.  An
empty or all-whitespace `text` raises `ValueError("Text is empty")`, which
the enclosing handler turns into the error dictionary with empty
`audio_data`. -/
def tts_synthesize (provider : String) (text : String)
    (helper : String → String → Except String (List ℕ)) : SynthResult :=
  if (pyStripChars text.data).isEmpty then
    { audio_data := [], text := text, provider := provider,
      word_count := none, error := some "Text is empty" }
  else
    let cleaned := prepare_text_for_swedish (String.mk (pyStripChars text.data))
    let outcome : Except String (List ℕ) :=
      if provider = "piper" || provider = "espeak" || provider = "system" then
        helper provider cleaned
      else .error ("Unknown provider: " ++ provider)
    match outcome with
    | .error e =>
      { audio_data := [], text := text, provider := provider,
        word_count := none, error := some e }
    | .ok data =>
      { audio_data := data, text := cleaned, provider := provider,
        word_count := some (pyWords cleaned.data).length, error := none }

/-! ## WhisperX processor (`whisperx_processor.py`) -/

/-- Keys of `self.supported_languages` (lines 47-58), in Python dict
insertion order. -/
def supportedLanguageKeys : List String :=
  ["sv", "en", "da", "no", "fi", "de", "fr", "es", "it", "nl"]

/-- The `vad_parameters` dictionary passed to `self.model.transcribe`. -/
structure VadParameters where
  min_silence_duration_ms : ℕ
  min_speech_duration_ms : ℕ
deriving DecidableEq

/-- Keyword arguments of the two `self.model.transcribe` call sites.
`language` is `none` when the keyword is not passed. -/
structure TranscribeOptions where
  language : Option String
  beam_size : ℕ
  best_of : ℕ
  temperature : ℚ
  condition_on_previous_text : Bool
  vad_filter : Bool
  vad_parameters : VadParameters
deriving DecidableEq

/-- Options of the `model.transcribe` call in `detect_language`
(lines 118-129): no `language` keyword, beam/best 1, VAD filtering on. -/
def detectLanguageTranscribeOptions : TranscribeOptions :=
  { language := none, beam_size := 1, best_of := 1, temperature := 0,
    condition_on_previous_text := false, vad_filter := true,
    vad_parameters := ⟨500, 250⟩ }

/-- Options of the `model.transcribe` call in `transcribe_buffer`
(lines 214-226): explicit language, beam/best 5, VAD filtering on. -/
def transcribeBufferTranscribeOptions (languageToUse : String) : TranscribeOptions :=
  { language := some languageToUse, beam_size := 5, best_of := 5, temperature := 0,
    condition_on_previous_text := false, vad_filter := true,
    vad_parameters := ⟨500, 250⟩ }

/-- One entry of the `all_languages` list built in `detect_language`. -/
structure LangScore where
  language : String
  confidence : ℚ
deriving DecidableEq

/-- Comparison realised by `all_languages.sort(key=lambda x: x['confidence'],
reverse=True)`: non-increasing confidence. -/
def langGE (a b : LangScore) : Prop := b.confidence ≤ a.confidence

instance : DecidableRel langGE :=
  fun a b => inferInstanceAs (Decidable (b.confidence ≤ a.confidence))

instance : IsTotal LangScore langGE :=
  ⟨fun a b => le_total b.confidence a.confidence⟩

instance : IsTrans LangScore langGE :=
  ⟨fun _ _ _ h1 h2 => le_trans h2 h1⟩

/-- `detection_languages` (lines 101-105): Python's `if supported_languages:`
is falsy for `None` and for an empty list, in which case all supported keys
are used; otherwise the argument is filtered against the supported keys. -/
def filteredDetectionLanguages (suppArg : Option (List String)) : List String :=
  match suppArg with
  | none => supportedLanguageKeys
  | some ls =>
    if ls.isEmpty then supportedLanguageKeys
    else ls.filter (fun lang => lang ∈ supportedLanguageKeys)

/-- Result dictionary of `detect_language`.  The wall-clock keys
`detection_duration` and `audio_duration` are not modelled. -/
structure DetectResult where
  detected_language : String
  language_confidence : ℚ
  all_languages : List LangScore
  supported_languages : List String
  error : Option String
deriving DecidableEq

/-- The dictionary built by the `except` handler of `detect_language`
(lines 173-182), for the case where `detection_languages` is already in
scope. -/
def detectLanguageFallback (defaultLang : String) (supp : List String)
    (e : String) : DetectResult :=
  { detected_language := defaultLang, language_confidence := 1/2,
    all_languages := [⟨defaultLang, 1/2⟩],
    supported_languages := supp, error := some e }

/-- `WhisperXProcessor.detect_language` (lines 82-182).  `bufLen` is
`len(audio_buffer)`; `model o` is the oracle for
`self.model.transcribe(audio_array, **o)` together with the preceding
temp-file write and `_preprocess_audio` call: it yields
`(info.language, info.language_probability)` on success, or the message of
whatever exception that phase raises.  A buffer of fewer than 1024 bytes
raises `ValueError` before `detection_languages` is assigned, so that
fallback reports the full supported-key list.  When the filtered list has
exactly one language different from the (possibly defaulted) detected
language, the alternative-confidence expression divides by
`len(detection_languages) - 1 == 0` and the handler reports the
`ZeroDivisionError`. -/
def whisper_detect_language (defaultLang : String) (bufLen : ℕ)
    (suppArg : Option (List String))
    (model : TranscribeOptions → Except String (String × ℚ)) : DetectResult :=
  if bufLen < 1024 then
    detectLanguageFallback defaultLang supportedLanguageKeys
      "Audio buffer is empty or too small"
  else
    let detLangs := filteredDetectionLanguages suppArg
    match model detectLanguageTranscribeOptions with
    | .error e => detectLanguageFallback defaultLang detLangs e
    | .ok (mLang, mProb) =>
      let det := if mLang ∈ detLangs then mLang else defaultLang
      let prob := if mLang ∈ detLangs then mProb else 1/2
      if detLangs.length == 1 && detLangs.any (fun l => l != det) then
        detectLanguageFallback defaultLang detLangs "float division by zero"
      else
        let n : ℚ := detLangs.length
        let all := detLangs.map (fun l =>
          if l = det then (⟨l, prob⟩ : LangScore)
          else ⟨l, max (1/10) ((1 - prob) / (n - 1))⟩)
        { detected_language := det, language_confidence := prob,
          all_languages := List.insertionSort langGE all,
          supported_languages := detLangs, error := none }

/-- Effect of the capitalization step of `_clean_transcription` on the
first character: `text[0]` is replaced by `text[0].upper()` unless
`text[0].isupper()`. -/
def capHead (c : Char) : Char := if pyIsUpper c then c else pyCharUpper c

/-- Step `text = text[0].upper() + text[1:]` of `_clean_transcription`
(lines 376-378), guarded by `if text and not text[0].isupper()`. -/
def capitalizeFirst : List Char → List Char
  | [] => []
  | c :: rest => capHead c :: rest

/-- Step `if text and text[-1] not in '.!?': text += '.'` of
`_clean_transcription` (lines 380-382). -/
def endPunct (l : List Char) : List Char :=
  match l.getLast? with
  | none => l
  | some c => if c = '.' || c = '!' || c = '?' then l else l ++ ['.']

/-- Application of `endPunct` to the last word of a word list (used to
describe the word-level effect of `_clean_transcription`). -/
def mapLastWord : List (List Char) → List (List Char)
  | [] => []
  | [w] => [endPunct w]
  | w :: ws => w :: mapLastWord ws

/-- `WhisperXProcessor._clean_transcription` (lines 359-384) on character
lists: collapse whitespace with `" ".join(text.split())`, `strip()`,
capitalize the first character, ensure a sentence-final `.`, `!` or `?`. -/
def cleanList (l : List Char) : List Char :=
  if l = [] then []
  else endPunct (capitalizeFirst (pyStripChars (joinWords (pyWords l))))

/-- `WhisperXProcessor._clean_transcription` on strings. -/
def clean_transcription (s : String) : String := String.mk (cleanList s.data)

/-- `swedish_indicators` list of `_assess_transcription_quality` (line 416). -/
def swedishIndicators : List String :=
  ["är", "och", "att", "jag", "det", "som", "en", "på", "med", "för"]

/-- Number of indicator words occurring as substrings of the lowered text:
`sum(1 for word in swedish_indicators if word in text.lower())`. -/
def swedishCount (text : String) : ℕ :=
  (swedishIndicators.filter
    (fun w => decide (w.data <:+: pyToLower text.data))).length

/-- `WhisperXProcessor._assess_transcription_quality` (lines 386-421).
Returns 0 for empty text; otherwise multiplies the confidence by 0.7 when
the word count is under 30% of `max(1, audio_size // 10000)`, by 1.1 when
the word count lies in `[5, 100]`, and by `1 + 0.02 * swedishCount` when at
least one Swedish indicator matches, finally capping at 1. -/
def assess_transcription_quality (text : String) (confidence : ℚ)
    (audioSize : ℕ) : ℚ :=
  if text = "" then 0
  else
    let q := confidence
    let wordCount := (pyWords text.data).length
    let expectedWords := max 1 (audioSize / 10000)
    let q := if (wordCount : ℚ) < (expectedWords : ℚ) * (3/10) then q * (7/10) else q
    let q := if 5 ≤ wordCount ∧ wordCount ≤ 100 then q * (11/10) else q
    let cnt := swedishCount text
    let q := if 0 < cnt then q * (1 + (cnt : ℚ) * (1/50)) else q
    min 1 q

/-- Python `int(q)` on a rational: truncation toward zero. -/
def pyTrunc (q : ℚ) : ℤ := if 0 ≤ q then ⌊q⌋ else -⌊-q⌋

/-- `WhisperXProcessor._normalize_audio` (lines 328-357).  `sosfilt` is the
oracle for the external `scipy.signal.sosfilt` high-pass filter (the bare
`except` of lines 353-355 skips it, i.e. `sosfilt = id`).  `np.mean` of an
empty array yields NaN without raising, but the subtraction then maps the
empty array to itself, so the mean's value is irrelevant there;
`np.max(np.abs(...))` of an empty array raises
`ValueError("zero-size array to reduction operation maximum which has no
identity")`, which this function propagates. -/
def normalize_audio (sosfilt : List ℚ → List ℚ) (audio : List ℚ) :
    Except String (List ℚ) :=
  let mean := audio.sum / audio.length
  let centered := audio.map (fun x => x - mean)
  match (centered.map abs).max? with
  | none =>
    .error "zero-size array to reduction operation maximum which has no identity"
  | some maxVal =>
    let scaled := if 0 < maxVal then centered.map (fun x => x / maxVal) else centered
    .ok (sosfilt scaled)

/-- `WhisperXProcessor._preprocess_audio` (lines 288-326).  `loaded` is the
oracle for `librosa.load(audio_path, sr=16000, mono=True)`: the decoded
sample list at the target rate, or a decoding exception.  A duration below
`min_duration = 0.5` only logs a warning (the `elif` skips truncation);
a duration above the effective maximum truncates to
`int(max_dur * sample_rate)` samples.  The `except` of lines 324-326
re-raises whatever the body raises. -/
def preprocess_audio (sosfilt : List ℚ → List ℚ)
    (loaded : Except String (List ℚ)) (maxDuration : Option ℚ) :
    Except String (List ℚ) :=
  match loaded with
  | .error e => .error e
  | .ok audio =>
    let sampleRate : ℚ := 16000
    let duration : ℚ := audio.length / sampleRate
    let maxDur := maxDuration.getD 120
    let audio :=
      if duration < 1/2 then audio
      else if maxDur < duration then audio.take (pyTrunc (maxDur * sampleRate)).toNat
      else audio
    normalize_audio sosfilt audio

/-- One element of the `segments` iterator returned by
`self.model.transcribe`.  `avg_logprob_exp` is the oracle value of
`np.exp(segment.avg_logprob)` (the exponential itself is transcendental and
happens outside the embedded code); the source clamps it into `[0, 1]`. -/
structure PySegment where
  text : String
  has_avg_logprob : Bool
  avg_logprob_exp : ℚ

/-- The `info` object returned by `self.model.transcribe`
(`hasattr(info, 'language')` is modelled as holding). -/
structure ModelInfo where
  language : String

/-- Result dictionary of `transcribe_buffer`.  Wall-clock and
`audio_duration` / `detected_language_probability` keys are not modelled;
`segments_count` is absent (`none`) on the error dictionary. -/
structure TranscribeResult where
  text : String
  language : String
  confidence : ℚ
  quality_score : ℚ
  model_used : String
  segments_count : Option ℕ
  error : Option String

/-- Instance attribute names assigned by `WhisperXProcessor.__init__`
(lines 34-80): note that no attribute named `language` is ever set — the
constructor stores the `language` argument as `default_language`. -/
def whisperInstanceAttrNames : List String :=
  ["model_size", "default_language", "supported_languages", "device",
   "model", "target_sample_rate", "min_duration", "max_duration"]

/-- `WhisperXProcessor.transcribe_buffer` (lines 184-286).  `bufLen` is
`len(audio_buffer)`; `preprocess` is the oracle for the temp-file write
plus `_preprocess_audio`; `model o` is the oracle for
`self.model.transcribe(audio_array, **o)`.  The `except` handler of
lines 276-286 builds its dictionary with `"language": self.language`; that
attribute access succeeds only if `__init__` assigned an attribute named
`language` (`whisperInstanceAttrNames`), and otherwise raises
`AttributeError`, which escapes the handler.  (The `then` branch below is
unreachable — `"language"` is not among the assigned attribute names — and
the placeholder field value it mentions is never inspected.) -/
def transcribe_buffer (modelSize defaultLang : String) (bufLen : ℕ)
    (targetLang : Option String) (preprocess : Except String Unit)
    (model : TranscribeOptions → Except String (List PySegment × ModelInfo)) :
    Except String TranscribeResult :=
  let languageToUse := match targetLang with
    | none => defaultLang
    | some t => if t = "" then defaultLang else t
  let body : Except String TranscribeResult :=
    if bufLen < 1024 then .error "Audio buffer is empty or too small"
    else match preprocess with
    | .error e => .error e
    | .ok _ =>
      match model (transcribeBufferTranscribeOptions languageToUse) with
      | .error e => .error e
      | .ok (segments, info) =>
        let rawText := segments.foldl (fun acc s => acc ++ s.text) ""
        let confSegs := segments.filter (fun s => s.has_avg_logprob)
        let totalConfidence :=
          (confSegs.map (fun s => min 1 (max 0 s.avg_logprob_exp))).sum
        let segmentCount := confSegs.length
        let avgConfidence :=
          if 0 < segmentCount then totalConfidence / segmentCount else 0
        let cleaned := clean_transcription rawText
        let quality := assess_transcription_quality cleaned avgConfidence bufLen
        .ok { text := cleaned, language := info.language,
              confidence := avgConfidence, quality_score := quality,
              model_used := modelSize, segments_count := some segmentCount,
              error := none }
  match body with
  | .ok r => .ok r
  | .error e =>
    if "language" ∈ whisperInstanceAttrNames then
      .ok { text := "", language := defaultLang, confidence := 0,
            quality_score := 0, model_used := modelSize,
            segments_count := none, error := some e }
    else
      .error "AttributeError: 'WhisperXProcessor' object has no attribute 'language'"

/-! ## Temporary-file bookkeeping

The filesystem is modelled as the set of existing paths.  Each of the five
`tempfile.NamedTemporaryFile(suffix=..., delete=False)` creations of the two
modules is followed by `try: ... finally: if os.path.exists(p): os.unlink(p)`.
In the three TTS helpers the `with` block only reads `temp_file.name`, so
every failure there happens inside the `try`; in `transcribe_buffer` and
`detect_language`, however, `temp_file.write(audio_buffer)` runs inside the
`with` block, after the file is created but before the `try`/`finally` is
entered, so a failing write propagates to the outer handler with the file
still on disk.  Try-body outcomes are oracles; bodies only run external
subprocesses, write the tracked path itself and read files, so their only
filesystem effect on the tracked path is leaving it in place. -/

/-- Filesystem effect of `TTSProcessor._synthesize_with_piper`
(lines 200-233): create the temp file, run the body (subprocess plus
read-back, with outcome `body`), then the `finally` unlink.  Returns the
Python result paired with the final filesystem. -/
def synthesize_with_piper_fs {α : Type} (fs : Finset String) (tmp : String)
    (body : Except String α) : Except String α × Finset String :=
  let fs1 := insert tmp fs
  let fs2 := if tmp ∈ fs1 then fs1.erase tmp else fs1
  (body, fs2)

/-- Filesystem effect of `TTSProcessor._synthesize_with_espeak`
(lines 235-265): same create / try-body / finally-unlink shape. -/
def synthesize_with_espeak_fs {α : Type} (fs : Finset String) (tmp : String)
    (body : Except String α) : Except String α × Finset String :=
  let fs1 := insert tmp fs
  let fs2 := if tmp ∈ fs1 then fs1.erase tmp else fs1
  (body, fs2)

/-- Filesystem effect of `TTSProcessor._synthesize_with_system`
(lines 267-313) on its named temporary `.aiff` file: same create /
try-body / finally-unlink shape.  (The optional `.wav` conversion file of
lines 288-304 is created and removed by the external `ffmpeg` branch, not
by a `NamedTemporaryFile` creation, and is outside this model.) -/
def synthesize_with_system_fs {α : Type} (fs : Finset String) (tmp : String)
    (body : Except String α) : Except String α × Finset String :=
  let fs1 := insert tmp fs
  let fs2 := if tmp ∈ fs1 then fs1.erase tmp else fs1
  (body, fs2)

/-- Filesystem effect of the temp file of `WhisperXProcessor.transcribe_buffer`
(lines 205-274): the `with` block creates the file and writes the buffer to
it (outcome `writeOutcome`); a failing write raises out of the `with` block
before the `try`/`finally` is entered, leaving the created file on disk;
after a successful write the try-body runs and the `finally` unlinks. -/
def transcribe_buffer_fs {α : Type} (fs : Finset String) (tmp : String)
    (writeOutcome : Except String Unit) (body : Except String α) :
    Except String α × Finset String :=
  let fs1 := insert tmp fs
  match writeOutcome with
  | .error e => (.error e, fs1)
  | .ok _ =>
    let fs2 := if tmp ∈ fs1 then fs1.erase tmp else fs1
    (body, fs2)

/-- Filesystem effect of the temp file of `WhisperXProcessor.detect_language`
(lines 108-171): the `with` block creates the file and writes the buffer to
it (outcome `writeOutcome`); a failing write raises out of the `with` block
before the `try`/`finally` is entered, leaving the created file on disk;
after a successful write the try-body runs and the `finally` unlinks. -/
def detect_language_fs {α : Type} (fs : Finset String) (tmp : String)
    (writeOutcome : Except String Unit) (body : Except String α) :
    Except String α × Finset String :=
  let fs1 := insert tmp fs
  match writeOutcome with
  | .error e => (.error e, fs1)
  | .ok _ =>
    let fs2 := if tmp ∈ fs1 then fs1.erase tmp else fs1
    (body, fs2)

/-! ## Theorems for the frozen claims: the provider fallback chain,
validation paths, VAD options and temp-file cleanup -/

/-- Claim C1: a `TTSProcessor` constructed with provider `"piper"` follows
the fixed fallback ordering: with piper unavailable (missing binary,
probe timeout, or non-zero exit — i.e. `probeOk` false) the provider
becomes `"espeak"`; with espeak also unavailable it becomes `"system"`;
with the system TTS also unavailable, construction raises
`RuntimeError("No TTS providers available")`; and with piper available the
provider stays `"piper"`. -/
theorem tts_provider_fallback_order (env : TTSEnv) :
    (probeOk env.piper = false → probeOk env.espeak = true →
      initialize_provider env "piper" = .ok "espeak") ∧
    (probeOk env.piper = false → probeOk env.espeak = false →
      probeOk env.say = true →
      initialize_provider env "piper" = .ok "system") ∧
    (probeOk env.piper = false → probeOk env.espeak = false →
      probeOk env.say = false →
      initialize_provider env "piper" = .error "No TTS providers available") ∧
    (probeOk env.piper = true → initialize_provider env "piper" = .ok "piper") := by
  refine ⟨fun h1 h2 => ?_, fun h1 h2 h3 => ?_, fun h1 h2 h3 => ?_, fun h1 => ?_⟩
  · simp [initialize_provider, initialize_piper, initialize_espeak, h1, h2]
  · simp [initialize_provider, initialize_piper, initialize_espeak,
      initialize_system, h1, h2, h3]
  · simp [initialize_provider, initialize_piper, initialize_espeak,
      initialize_system, h1, h2, h3]
  · simp [initialize_provider, initialize_piper, h1]

/-- Witness for claim C1 at a concrete environment: piper times out, espeak
works, so construction with `"piper"` ends on provider `"espeak"`. -/
theorem tts_provider_fallback_order_witness :
    initialize_provider ⟨ProbeResult.timesOut, ProbeResult.exits 0,
      ProbeResult.notFound⟩ "piper" = .ok "espeak" :=
  (tts_provider_fallback_order ⟨ProbeResult.timesOut, ProbeResult.exits 0,
    ProbeResult.notFound⟩).1 (by decide) (by decide)

/-- Claim C4: on empty or all-whitespace input text, `synthesize` does not
raise: the `ValueError("Text is empty")` is caught by its handler and the
returned dictionary has empty `audio_data` and the error message
`"Text is empty"`. -/
theorem synthesize_empty_text_error (provider text : String)
    (helper : String → String → Except String (List ℕ))
    (h : ∀ c ∈ text.data, c.isWhitespace = true) :
    tts_synthesize provider text helper =
      { audio_data := [], text := text, provider := provider,
        word_count := none, error := some "Text is empty" } := by
  have hdrop : text.data.dropWhile Char.isWhitespace = [] :=
    List.dropWhile_eq_nil_iff.mpr h
  have hstrip : pyStripChars text.data = [] := by
    simp [pyStripChars, hdrop]
  simp [tts_synthesize, hstrip]

/-- Witness for claim C4 at the concrete all-whitespace text `" "`. -/
theorem synthesize_empty_text_error_witness :
    tts_synthesize "piper" " " (fun _ _ => .ok [0]) =
      { audio_data := [], text := " ", provider := "piper",
        word_count := none, error := some "Text is empty" } :=
  synthesize_empty_text_error "piper" " " (fun _ _ => .ok [0]) (by decide)

/-- Claim C6: both `model.transcribe` call sites — the one in
`detect_language` and, for every language argument, the one in
`transcribe_buffer` — pass `vad_filter=True` with
`min_silence_duration_ms=500` and `min_speech_duration_ms=250`; these
option records are the only places VAD appears in the embedded processors. -/
theorem vad_options_fixed :
    detectLanguageTranscribeOptions.vad_filter = true ∧
    detectLanguageTranscribeOptions.vad_parameters =
      { min_silence_duration_ms := 500, min_speech_duration_ms := 250 } ∧
    ∀ lang : String,
      (transcribeBufferTranscribeOptions lang).vad_filter = true ∧
      (transcribeBufferTranscribeOptions lang).vad_parameters =
        { min_silence_duration_ms := 500, min_speech_duration_ms := 250 } :=
  ⟨rfl, rfl, fun _ => ⟨rfl, rfl⟩⟩

/-- Claim C7 (amended): each named temporary file created by `synthesize`
(via any of the three provider helpers) is absent from the filesystem when
the helper returns, whatever the body's outcome; for `transcribe_buffer`
and `detect_language` the same holds on the success path and on every error
path reached after the buffer write into the temp file completes, while a
failing buffer write — raised inside the `with` block, before the
`try`/`finally` — leaves the created file on disk. -/
theorem temp_files_cleanup_spec {α β γ δ ε : Type} (fs : Finset String)
    (tmp : String) (b1 : Except String α) (b2 : Except String β)
    (b3 : Except String γ) (b4 : Except String δ) (b5 : Except String ε)
    (e4 e5 : String) :
    tmp ∉ (synthesize_with_piper_fs fs tmp b1).2 ∧
    tmp ∉ (synthesize_with_espeak_fs fs tmp b2).2 ∧
    tmp ∉ (synthesize_with_system_fs fs tmp b3).2 ∧
    tmp ∉ (transcribe_buffer_fs fs tmp (.ok ()) b4).2 ∧
    tmp ∉ (detect_language_fs fs tmp (.ok ()) b5).2 ∧
    tmp ∈ (transcribe_buffer_fs fs tmp (.error e4) b4).2 ∧
    tmp ∈ (detect_language_fs fs tmp (.error e5) b5).2 := by
  refine ⟨?_, ?_, ?_, ?_, ?_, ?_, ?_⟩ <;>
    simp [synthesize_with_piper_fs, synthesize_with_espeak_fs,
      synthesize_with_system_fs, transcribe_buffer_fs, detect_language_fs]

/-- Claim C7 counterexample: a failing buffer write (for example the disk
filling up) in `transcribe_buffer` or `detect_language` raises after the
temp file was created but before the `try`/`finally`, so the method returns
through its outer handler with the temporary file still on disk — it is not
deleted on that error path. -/
theorem temp_file_write_failure_counterexample :
    "/tmp/buf.wav" ∈ (transcribe_buffer_fs ∅ "/tmp/buf.wav"
      (.error "OSError: no space left on device")
      (.ok () : Except String Unit)).2 ∧
    "/tmp/buf.wav" ∈ (detect_language_fs ∅ "/tmp/buf.wav"
      (.error "OSError: no space left on device")
      (.ok () : Except String Unit)).2 := by
  constructor <;> simp [transcribe_buffer_fs, detect_language_fs]

/-- Claim C8 (refuted, code bug): at the failing input of an empty audio
buffer, `transcribe_buffer` does not return an error dictionary — the
`except` handler's access to the never-assigned attribute `self.language`
raises `AttributeError`, which propagates to the caller. -/
theorem transcribe_buffer_raises_attribute_error :
    transcribe_buffer "base" "sv" 0 none (.ok ())
        (fun _ => .error "model unavailable") =
      .error "AttributeError: 'WhisperXProcessor' object has no attribute 'language'" := by
  rfl

/-- Claim C9: on a buffer that is empty or smaller than 1024 bytes,
`detect_language` does not raise: it returns the fallback dictionary whose
detected language is the processor's default, with confidence 0.5, a
single-entry `all_languages` list for the default language at 0.5, and an
`error` field (carrying the `ValueError` message, with the supported list
reported as all supported keys since `detection_languages` was not yet
assigned). -/
theorem detect_language_small_buffer_fallback (defaultLang : String)
    (bufLen : ℕ) (suppArg : Option (List String))
    (model : TranscribeOptions → Except String (String × ℚ))
    (h : bufLen < 1024) :
    (whisper_detect_language defaultLang bufLen suppArg model).detected_language
        = defaultLang ∧
    (whisper_detect_language defaultLang bufLen suppArg model).language_confidence
        = 1/2 ∧
    (whisper_detect_language defaultLang bufLen suppArg model).all_languages
        = [{ language := defaultLang, confidence := 1/2 }] ∧
    (whisper_detect_language defaultLang bufLen suppArg model).supported_languages
        = supportedLanguageKeys ∧
    (whisper_detect_language defaultLang bufLen suppArg model).error
        = some "Audio buffer is empty or too small" := by
  refine ⟨?_, ?_, ?_, ?_, ?_⟩ <;>
    simp [whisper_detect_language, h, detectLanguageFallback]

/-- Witness for claim C9 at the concrete empty buffer (length 0). -/
theorem detect_language_small_buffer_fallback_witness :
    (whisper_detect_language "sv" 0 none
        (fun _ => .error "unused")).all_languages
      = [{ language := "sv", confidence := 1/2 }] :=
  (detect_language_small_buffer_fallback "sv" 0 none
    (fun _ => .error "unused") (by decide)).2.2.1

/-! ## Theorem for the quality heuristic (claim C3) -/

/-- Claim C3: for every text, confidence in `[0, 1]` and audio size,
`_assess_transcription_quality` returns a value in `[0, 1]`; it returns
exactly 0 for empty text, and otherwise the confidence times a 0.7 penalty
factor (word count below 30% of `max(1, audio_size // 10000)`), a 1.1
bonus factor (word count in `[5, 100]`), and a Swedish-indicator bonus
factor `1 + 0.02 * count`, capped at 1. -/
theorem assess_quality_range_and_form (text : String) (confidence : ℚ)
    (audioSize : ℕ) (h0 : 0 ≤ confidence) (h1 : confidence ≤ 1) :
    0 ≤ assess_transcription_quality text confidence audioSize ∧
    assess_transcription_quality text confidence audioSize ≤ 1 ∧
    (text = "" → assess_transcription_quality text confidence audioSize = 0) ∧
    (text ≠ "" →
      assess_transcription_quality text confidence audioSize =
        min 1 (confidence *
          (if ((pyWords text.data).length : ℚ) <
              ((max 1 (audioSize / 10000) : ℕ) : ℚ) * (3/10) then 7/10 else 1) *
          (if 5 ≤ (pyWords text.data).length ∧ (pyWords text.data).length ≤ 100
            then 11/10 else 1) *
          (if 0 < swedishCount text
            then 1 + (swedishCount text : ℚ) * (1/50) else 1))) := by
  by_cases htext : text = ""
  · subst htext
    refine ⟨le_refl 0 |>.trans ?_, ?_, fun _ => ?_, fun hc => absurd rfl hc⟩ <;>
      simp [assess_transcription_quality]
  · have hE : assess_transcription_quality text confidence audioSize =
        min 1 (confidence *
          (if ((pyWords text.data).length : ℚ) <
              ((max 1 (audioSize / 10000) : ℕ) : ℚ) * (3/10) then 7/10 else 1) *
          (if 5 ≤ (pyWords text.data).length ∧ (pyWords text.data).length ≤ 100
            then 11/10 else 1) *
          (if 0 < swedishCount text
            then 1 + (swedishCount text : ℚ) * (1/50) else 1)) := by
      unfold assess_transcription_quality
      rw [if_neg htext]
      by_cases hA : ((pyWords text.data).length : ℚ) <
          ((max 1 (audioSize / 10000) : ℕ) : ℚ) * (3/10) <;>
        by_cases hB : 5 ≤ (pyWords text.data).length ∧
          (pyWords text.data).length ≤ 100 <;>
        by_cases hC : 0 < swedishCount text <;>
        simp only [hA, hB, hC, if_true, if_false, ite_true, ite_false,
          and_self, if_pos, if_neg, not_false_iff] <;>
        first
          | rfl
          | (congr 1; ring)
    have ha : (0:ℚ) ≤ (if ((pyWords text.data).length : ℚ) <
        ((max 1 (audioSize / 10000) : ℕ) : ℚ) * (3/10) then 7/10 else 1) := by
      split_ifs <;> norm_num
    have hb : (0:ℚ) ≤ (if 5 ≤ (pyWords text.data).length ∧
        (pyWords text.data).length ≤ 100 then 11/10 else 1) := by
      split_ifs <;> norm_num
    have hc : (0:ℚ) ≤ (if 0 < swedishCount text
        then 1 + (swedishCount text : ℚ) * (1/50) else 1) := by
      split_ifs <;> positivity
    refine ⟨?_, ?_, fun h => absurd h htext, fun _ => hE⟩
    · rw [hE]
      exact le_min (by norm_num)
        (mul_nonneg (mul_nonneg (mul_nonneg h0 ha) hb) hc)
    · rw [hE]
      exact min_le_left _ _

/-- Witness for claim C3 at concrete inputs. -/
theorem assess_quality_range_and_form_witness :
    0 ≤ assess_transcription_quality "hej det är bra" (1/2) 20000 ∧
    assess_transcription_quality "hej det är bra" (1/2) 20000 ≤ 1 :=
  ⟨(assess_quality_range_and_form "hej det är bra" (1/2) 20000
      (by norm_num) (by norm_num)).1,
   (assess_quality_range_and_form "hej det är bra" (1/2) 20000
      (by norm_num) (by norm_num)).2.1⟩

/-! ## Theorems for audio preprocessing (claim C5) -/

/-- On a nonempty sample list, `_normalize_audio` succeeds and preserves the
length, given that the external high-pass filter preserves length. -/
theorem normalize_audio_length (sosfilt : List ℚ → List ℚ)
    (hfilt : ∀ l, (sosfilt l).length = l.length)
    (audio : List ℚ) (hne : audio ≠ []) :
    ∃ out, normalize_audio sosfilt audio = .ok out ∧
      out.length = audio.length := by
  unfold normalize_audio
  dsimp only
  rcases hm : ((audio.map (fun x => x - audio.sum / audio.length)).map abs).max?
    with _ | m
  · exfalso
    have := List.max?_eq_none_iff.mp hm
    simp only [List.map_eq_nil, not_or] at this
    exact hne this
  · refine ⟨_, rfl, ?_⟩
    by_cases h0 : 0 < m <;> simp [h0, hfilt]

/-- Claim C5 (amended to nonempty decoded audio): `_preprocess_audio` at the
target sample rate 16000 Hz returns audio of length at most the effective
maximum duration times 16000; audio longer than the maximum is truncated to
exactly `int(max_dur * 16000)` samples; audio shorter than the 0.5 s
minimum is still processed with no error and its length kept. -/
theorem preprocess_audio_length_spec (sosfilt : List ℚ → List ℚ)
    (audio : List ℚ) (maxDuration : Option ℚ)
    (hfilt : ∀ l, (sosfilt l).length = l.length)
    (hne : audio ≠ [])
    (hmax : 1/2 ≤ maxDuration.getD 120) :
    ∃ out, preprocess_audio sosfilt (.ok audio) maxDuration = .ok out ∧
      (out.length : ℚ) ≤ maxDuration.getD 120 * 16000 ∧
      (maxDuration.getD 120 < (audio.length : ℚ) / 16000 →
        out.length = (pyTrunc (maxDuration.getD 120 * 16000)).toNat) ∧
      ((audio.length : ℚ) / 16000 < 1/2 → out.length = audio.length) := by
  by_cases hshort : (audio.length : ℚ) / 16000 < 1/2
  · obtain ⟨out, hout, hlen⟩ := normalize_audio_length sosfilt hfilt audio hne
    refine ⟨out, ?_, ?_, ?_, fun _ => hlen⟩
    · unfold preprocess_audio
      dsimp only
      rw [if_pos hshort]
      exact hout
    · rw [hlen]
      have h1 : (audio.length : ℚ) < 8000 := by
        rw [div_lt_iff (by norm_num : (0:ℚ) < 16000)] at hshort
        linarith
      nlinarith [hmax]
    · intro hgt
      exfalso
      linarith [hmax, hshort, hgt]
  · by_cases htrunc : maxDuration.getD 120 < (audio.length : ℚ) / 16000
    · have hmaxnn : (0:ℚ) ≤ maxDuration.getD 120 * 16000 := by nlinarith [hmax]
      have hptrunc : pyTrunc (maxDuration.getD 120 * 16000) =
          ⌊maxDuration.getD 120 * 16000⌋ := by
        unfold pyTrunc
        rw [if_pos hmaxnn]
      have hfloor_nonneg : 0 ≤ ⌊maxDuration.getD 120 * 16000⌋ :=
        Int.floor_nonneg.mpr hmaxnn
      have hNcast : (((pyTrunc (maxDuration.getD 120 * 16000)).toNat : ℕ) : ℚ) ≤
          maxDuration.getD 120 * 16000 := by
        rw [hptrunc]
        have hcast : ((⌊maxDuration.getD 120 * 16000⌋.toNat : ℕ) : ℚ) =
            ((⌊maxDuration.getD 120 * 16000⌋ : ℤ) : ℚ) := by
          exact_mod_cast congrArg (fun z : ℤ => (z : ℚ))
            (Int.toNat_of_nonneg hfloor_nonneg)
        rw [hcast]
        exact Int.floor_le _
      have hlt : maxDuration.getD 120 * 16000 < (audio.length : ℚ) :=
        (lt_div_iff (by norm_num : (0:ℚ) < 16000)).mp htrunc
      have hNlt : (((pyTrunc (maxDuration.getD 120 * 16000)).toNat : ℕ) : ℚ) <
          (audio.length : ℚ) := lt_of_le_of_lt hNcast hlt
      have hNle : (pyTrunc (maxDuration.getD 120 * 16000)).toNat ≤ audio.length := by
        exact_mod_cast hNlt.le
      have htake_len :
          (audio.take (pyTrunc (maxDuration.getD 120 * 16000)).toNat).length =
            (pyTrunc (maxDuration.getD 120 * 16000)).toNat := by
        rw [List.length_take]
        exact min_eq_left hNle
      have h8 : (8000 : ℤ) ≤ ⌊maxDuration.getD 120 * 16000⌋ := by
        apply Int.le_floor.mpr
        push_cast
        nlinarith [hmax]
      have hNpos : 0 < (pyTrunc (maxDuration.getD 120 * 16000)).toNat := by
        rw [hptrunc]
        omega
      have htake_ne : audio.take (pyTrunc (maxDuration.getD 120 * 16000)).toNat ≠ [] := by
        apply List.length_pos.mp
        rw [htake_len]
        exact hNpos
      obtain ⟨out, hout, hlen⟩ := normalize_audio_length sosfilt hfilt
        (audio.take (pyTrunc (maxDuration.getD 120 * 16000)).toNat) htake_ne
      refine ⟨out, ?_, ?_, fun _ => by rw [hlen, htake_len],
        fun hsh => absurd hsh hshort⟩
      · unfold preprocess_audio
        dsimp only
        rw [if_neg hshort, if_pos htrunc]
        exact hout
      · rw [hlen, htake_len]
        exact hNcast
    · obtain ⟨out, hout, hlen⟩ := normalize_audio_length sosfilt hfilt audio hne
      refine ⟨out, ?_, ?_, fun h => absurd h htrunc, fun h => absurd h hshort⟩
      · unfold preprocess_audio
        dsimp only
        rw [if_neg hshort, if_neg htrunc]
        exact hout
      · rw [hlen]
        have hle := not_lt.mp htrunc
        rw [div_le_iff (by norm_num : (0:ℚ) < 16000)] at hle
        linarith

/-- Witness for claim C5 at a concrete short sample list and the
language-detection maximum of 10 seconds. -/
theorem preprocess_audio_length_spec_witness :
    ∃ out, preprocess_audio id (.ok [1, 2]) (some 10) = .ok out ∧
      (out.length : ℚ) ≤ (some (10:ℚ)).getD 120 * 16000 ∧
      ((some (10:ℚ)).getD 120 < (([1, 2] : List ℚ).length : ℚ) / 16000 →
        out.length = (pyTrunc ((some (10:ℚ)).getD 120 * 16000)).toNat) ∧
      ((([1, 2] : List ℚ).length : ℚ) / 16000 < 1/2 →
        out.length = ([1, 2] : List ℚ).length) :=
  preprocess_audio_length_spec id [1, 2] (some 10) (fun _ => rfl)
    (by decide) (by norm_num)

/-- Claim C5 counterexample: an audio file decoding to zero samples is not
"processed with only a warning" — `np.max(np.abs(...))` on the empty array
raises and the error propagates out of `_preprocess_audio`. -/
theorem preprocess_audio_empty_counterexample :
    preprocess_audio id (.ok []) none =
      .error "zero-size array to reduction operation maximum which has no identity" := by
  norm_num [preprocess_audio, normalize_audio]

/-! ## Theorems for language-detection alternatives (claim C2) -/

/-- Claim C2 (amended with the single-language proviso): when the detection
phase succeeds and the filtered list is not a single language different
from the (possibly defaulted) detected language, `detect_language` returns
no error; its `detected_language`/`language_confidence` are the model's
language and probability when that language is in the filtered list and the
default language with 0.5 otherwise; `all_languages` has exactly one entry
per filtered language, sorted by non-increasing confidence, the detected
entry carrying the effective probability and every other entry carrying
`max(0.1, (1 - p) / (n - 1))`. -/
theorem detect_language_alternatives_spec (defaultLang : String) (bufLen : ℕ)
    (suppArg : Option (List String))
    (model : TranscribeOptions → Except String (String × ℚ))
    (mLang : String) (mProb : ℚ) (det : String) (prob : ℚ)
    (hbuf : ¬ bufLen < 1024)
    (hmodel : model detectLanguageTranscribeOptions = .ok (mLang, mProb))
    (hdet : det = if mLang ∈ filteredDetectionLanguages suppArg
      then mLang else defaultLang)
    (hprob : prob = if mLang ∈ filteredDetectionLanguages suppArg
      then mProb else 1/2)
    (hguard : ¬((filteredDetectionLanguages suppArg).length = 1 ∧
      ∃ l ∈ filteredDetectionLanguages suppArg, l ≠ det)) :
    (whisper_detect_language defaultLang bufLen suppArg model).error = none ∧
    (whisper_detect_language defaultLang bufLen suppArg model).detected_language
      = det ∧
    (whisper_detect_language defaultLang bufLen suppArg model).language_confidence
      = prob ∧
    ((whisper_detect_language defaultLang bufLen suppArg model).all_languages.map
      LangScore.language).Perm (filteredDetectionLanguages suppArg) ∧
    List.Sorted langGE
      (whisper_detect_language defaultLang bufLen suppArg model).all_languages ∧
    (∀ e ∈ (whisper_detect_language defaultLang bufLen suppArg model).all_languages,
      e.confidence = if e.language = det then prob
        else max (1/10) ((1 - prob) /
          (((filteredDetectionLanguages suppArg).length : ℚ) - 1))) ∧
    (mLang ∉ filteredDetectionLanguages suppArg →
      (whisper_detect_language defaultLang bufLen suppArg model).detected_language
          = defaultLang ∧
      (whisper_detect_language defaultLang bufLen suppArg model).language_confidence
          = 1/2) := by
  have hguardb : ¬(((filteredDetectionLanguages suppArg).length == 1 &&
      (filteredDetectionLanguages suppArg).any (fun l => l != det)) = true) := by
    intro hb
    rw [Bool.and_eq_true] at hb
    obtain ⟨l, hl, hne⟩ := List.any_eq_true.mp hb.2
    exact hguard ⟨eq_of_beq hb.1, l, hl, bne_iff_ne.mp hne⟩
  have hr : whisper_detect_language defaultLang bufLen suppArg model =
      { detected_language := det, language_confidence := prob,
        all_languages := List.insertionSort langGE
          ((filteredDetectionLanguages suppArg).map (fun l =>
            if l = det then (⟨l, prob⟩ : LangScore)
            else ⟨l, max (1/10) ((1 - prob) /
              (((filteredDetectionLanguages suppArg).length : ℚ) - 1))⟩)),
        supported_languages := filteredDetectionLanguages suppArg,
        error := none } := by
    unfold whisper_detect_language
    rw [if_neg hbuf]
    dsimp only
    rw [hmodel]
    dsimp only
    rw [← hdet, ← hprob, if_neg hguardb]
  have hmapl : ((filteredDetectionLanguages suppArg).map (fun l =>
      if l = det then (⟨l, prob⟩ : LangScore)
      else ⟨l, max (1/10) ((1 - prob) /
        (((filteredDetectionLanguages suppArg).length : ℚ) - 1))⟩)).map
      LangScore.language = filteredDetectionLanguages suppArg := by
    rw [List.map_map]
    have hcomp : (LangScore.language ∘ fun l =>
        if l = det then (⟨l, prob⟩ : LangScore)
        else ⟨l, max (1/10) ((1 - prob) /
          (((filteredDetectionLanguages suppArg).length : ℚ) - 1))⟩) =
        fun l => l := by
      funext l
      by_cases h : l = det <;> simp [h]
    rw [hcomp, List.map_id']
  refine ⟨by rw [hr], by rw [hr], by rw [hr], ?_, ?_, ?_, fun hnotin => ?_⟩
  · rw [hr]
    have hp := (List.perm_insertionSort langGE
      ((filteredDetectionLanguages suppArg).map (fun l =>
        if l = det then (⟨l, prob⟩ : LangScore)
        else ⟨l, max (1/10) ((1 - prob) /
          (((filteredDetectionLanguages suppArg).length : ℚ) - 1))⟩))).map
      LangScore.language
    rw [hmapl] at hp
    exact hp
  · rw [hr]
    exact List.sorted_insertionSort langGE _
  · rw [hr]
    intro e he
    have he2 : e ∈ (filteredDetectionLanguages suppArg).map (fun l =>
        if l = det then (⟨l, prob⟩ : LangScore)
        else ⟨l, max (1/10) ((1 - prob) /
          (((filteredDetectionLanguages suppArg).length : ℚ) - 1))⟩) :=
      (List.mem_insertionSort langGE).mp he
    obtain ⟨l, _, hfl⟩ := List.mem_map.mp he2
    by_cases h : l = det
    · rw [if_pos h] at hfl
      rw [← hfl]
      simp [h]
    · rw [if_neg h] at hfl
      rw [← hfl]
      simp [h]
  · rw [hr]
    rw [if_neg hnotin] at hdet hprob
    exact ⟨hdet, hprob⟩

/-- Witness for claim C2 at a concrete successful detection over the full
supported-language list. -/
theorem detect_language_alternatives_spec_witness :
    ((whisper_detect_language "sv" 2048 none
      (fun _ => .ok ("en", 4/5))).all_languages.map LangScore.language).Perm
      (filteredDetectionLanguages none) :=
  (detect_language_alternatives_spec "sv" 2048 none (fun _ => .ok ("en", 4/5))
    "en" (4/5) "en" (4/5) (by decide) rfl
    (by rw [if_pos ((by decide) : "en" ∈ filteredDetectionLanguages none)])
    (by rw [if_pos ((by decide) : "en" ∈ filteredDetectionLanguages none)])
    (by decide)).2.2.2.1

/-- Claim C2 counterexample: with filtered list `["en"]` and the model
detecting `"sv"` (not in the list), the alternative-confidence expression
divides by zero, so the returned `all_languages` has no entry for `"en"`
even though the detection phase succeeded — the claim's per-language-entry
clause fails there. -/
theorem detect_language_single_language_counterexample :
    ("en" ∈ filteredDetectionLanguages (some ["en"])) ∧
    "en" ∉ ((whisper_detect_language "sv" 2048 (some ["en"])
      (fun _ => .ok ("sv", 9/10))).all_languages.map LangScore.language) ∧
    (whisper_detect_language "sv" 2048 (some ["en"])
      (fun _ => .ok ("sv", 9/10))).error = some "float division by zero" :=
  ⟨by decide, by decide, by decide⟩

/-! ## Lemmas on the modelled alphabet and word splitting (towards claim C10) -/

/-- Both components of every case-mapping pair are non-whitespace. -/
theorem pyUpperTable_pairs :
    ∀ p ∈ pyUpperTable, p.1.isWhitespace = false ∧ p.2.isWhitespace = false := by
  decide

/-- No uppercase table entry is itself a lowercase character. -/
theorem pyUpperTable_snd_notLower : ∀ p ∈ pyUpperTable, pyIsLower p.2 = false := by
  decide

/-- Every uppercase table entry is an uppercase character. -/
theorem pyUpperTable_snd_isUpper : ∀ p ∈ pyUpperTable, pyIsUpper p.2 = true := by
  decide

/-- `pyCharUpper` either fixes a character that is not lowercase, or maps a
table pair's lowercase side to its uppercase side. -/
theorem pyCharUpper_cases (c : Char) :
    (pyCharUpper c = c ∧ pyIsLower c = false) ∨
    ∃ p ∈ pyUpperTable, p.1 = c ∧ pyCharUpper c = p.2 := by
  cases hfind : pyUpperTable.find? (fun p => p.1 == c) with
  | none =>
    left
    constructor
    · simp [pyCharUpper, hfind]
    · unfold pyIsLower
      rw [List.any_eq_false]
      intro p hp
      have := List.find?_eq_none.mp hfind p hp
      simpa using this
  | some p =>
    right
    refine ⟨p, List.mem_of_find?_eq_some hfind, ?_, ?_⟩
    · have := List.find?_some hfind
      simpa using this
    · simp [pyCharUpper, hfind]

/-- `pyCharUpper` preserves whitespace status. -/
theorem pyCharUpper_ws (c : Char) :
    (pyCharUpper c).isWhitespace = c.isWhitespace := by
  rcases pyCharUpper_cases c with ⟨h1, _⟩ | ⟨p, hp, hpc, hup⟩
  · rw [h1]
  · rw [hup, ← hpc]
    have h := pyUpperTable_pairs p hp
    rw [h.1, h.2]

/-- The result of `pyCharUpper` is never a lowercase character. -/
theorem pyIsLower_pyCharUpper (c : Char) : pyIsLower (pyCharUpper c) = false := by
  rcases pyCharUpper_cases c with ⟨h1, h2⟩ | ⟨p, hp, _, hup⟩
  · rw [h1]; exact h2
  · rw [hup]; exact pyUpperTable_snd_notLower p hp

/-- Uppercase characters of the modelled alphabet are not lowercase. -/
theorem pyIsLower_of_isUpper (c : Char) (h : pyIsUpper c = true) :
    pyIsLower c = false := by
  obtain ⟨p, hp, hpc⟩ := List.any_eq_true.mp h
  have := pyUpperTable_snd_notLower p hp
  exact (beq_iff_eq.mp hpc) ▸ this

/-- `capHead` preserves whitespace status. -/
theorem capHead_ws (c : Char) : (capHead c).isWhitespace = c.isWhitespace := by
  unfold capHead
  split
  · rfl
  · exact pyCharUpper_ws c

/-- The result of `capHead` is never a lowercase character. -/
theorem capHead_notLower (c : Char) : pyIsLower (capHead c) = false := by
  unfold capHead
  split
  · exact pyIsLower_of_isUpper c (by assumption)
  · exact pyIsLower_pyCharUpper c

/-- `capHead` is idempotent. -/
theorem capHead_idem (c : Char) : capHead (capHead c) = capHead c := by
  by_cases h : pyIsUpper c = true
  · simp [capHead, h]
  · have hc : capHead c = pyCharUpper c := by simp [capHead, h]
    rw [hc]
    rcases pyCharUpper_cases c with ⟨h1, _⟩ | ⟨p, hp, _, hup⟩
    · rw [h1, hc, h1]
    · rw [hup]
      simp [capHead, pyUpperTable_snd_isUpper p hp]

/-- `pyWordsAux` on an empty word list is empty exactly when the accumulator
is empty and every remaining character is whitespace. -/
theorem pyWordsAux_eq_nil_iff (l : List Char) : ∀ acc,
    (pyWordsAux acc l = [] ↔ acc = [] ∧ ∀ c ∈ l, c.isWhitespace = true) := by
  induction l with
  | nil =>
    intro acc
    by_cases h : acc = [] <;> simp [pyWordsAux, h]
  | cons c cs ih =>
    intro acc
    simp only [pyWordsAux]
    split
    · next hws =>
      by_cases h : acc = []
      · simpa [h, hws] using ih []
      · simp [h]
    · next hws =>
      have hcf : c.isWhitespace = false := by simpa using hws
      simp [ih (c :: acc), hcf]

/-- `str.split()` yields the empty list exactly on all-whitespace input. -/
theorem pyWords_eq_nil_iff (l : List Char) :
    pyWords l = [] ↔ ∀ c ∈ l, c.isWhitespace = true := by
  simpa [pyWords] using pyWordsAux_eq_nil_iff l []

/-- Every word produced by `pyWordsAux` over a whitespace-free accumulator
is nonempty and whitespace-free. -/
theorem pyWordsAux_words (l : List Char) : ∀ acc,
    (∀ c ∈ acc, c.isWhitespace = false) →
    ∀ w ∈ pyWordsAux acc l, w ≠ [] ∧ ∀ c ∈ w, c.isWhitespace = false := by
  induction l with
  | nil =>
    intro acc hacc w hw
    simp only [pyWordsAux] at hw
    split at hw
    · simp at hw
    · next h =>
      simp only [List.mem_singleton] at hw
      subst hw
      refine ⟨by simpa using h, ?_⟩
      intro c hc
      exact hacc c (List.mem_reverse.mp hc)
  | cons c cs ih =>
    intro acc hacc w hw
    simp only [pyWordsAux] at hw
    split at hw
    · split at hw
      · exact ih [] (by simp) w hw
      · next hne =>
        rcases List.mem_cons.mp hw with h | h
        · subst h
          refine ⟨by simpa using hne, ?_⟩
          intro x hx
          exact hacc x (List.mem_reverse.mp hx)
        · exact ih [] (by simp) w h
    · next hws =>
      have hcf : c.isWhitespace = false := by simpa using hws
      refine ih (c :: acc) ?_ w hw
      intro x hx
      rcases List.mem_cons.mp hx with h | h
      · subst h; exact hcf
      · exact hacc x h

/-- Every word of `pyWords` is nonempty and whitespace-free. -/
theorem pyWords_words (l : List Char) :
    ∀ w ∈ pyWords l, w ≠ [] ∧ ∀ c ∈ w, c.isWhitespace = false :=
  pyWordsAux_words l [] (by simp)

/-- Consuming a whitespace-free block just extends the accumulator. -/
theorem pyWordsAux_append (w : List Char) : ∀ acc l,
    (∀ c ∈ w, c.isWhitespace = false) →
    pyWordsAux acc (w ++ l) = pyWordsAux (w.reverse ++ acc) l := by
  induction w with
  | nil => intro acc l _; simp
  | cons c w' ih =>
    intro acc l hw
    have hc : c.isWhitespace = false := hw c (by simp)
    simp only [List.cons_append, pyWordsAux, hc, Bool.false_eq_true, if_false]
    show pyWordsAux (c :: acc) (w' ++ l) = pyWordsAux ((c :: w').reverse ++ acc) l
    rw [ih (c :: acc) l (fun x hx => hw x (by simp [hx]))]
    congr 1
    simp

/-- Unfolding of `joinWords` on a list with at least two words. -/
theorem joinWords_cons (w : List Char) (ws2 : List (List Char)) (h : ws2 ≠ []) :
    joinWords (w :: ws2) = w ++ ' ' :: joinWords ws2 := by
  cases ws2 with
  | nil => exact absurd rfl h
  | cons r rs => rfl

/-- Splitting the space-joined words recovers them, when each word is
nonempty and whitespace-free. -/
theorem pyWords_joinWords (ws2 : List (List Char))
    (h : ∀ w ∈ ws2, w ≠ [] ∧ ∀ c ∈ w, c.isWhitespace = false) :
    pyWords (joinWords ws2) = ws2 := by
  induction ws2 with
  | nil => rfl
  | cons w rest ih =>
    have hw := h w (by simp)
    cases rest with
    | nil =>
      show pyWords (joinWords [w]) = [w]
      have h1 : pyWordsAux [] (w ++ []) = pyWordsAux (w.reverse ++ []) [] :=
        pyWordsAux_append w [] [] hw.2
      simp only [List.append_nil] at h1
      unfold pyWords
      show pyWordsAux [] w = [w]
      rw [h1]
      simp [pyWordsAux, hw.1]
    | cons r rs =>
      rw [joinWords_cons w (r :: rs) (by simp)]
      unfold pyWords
      rw [show w ++ ' ' :: joinWords (r :: rs) =
        w ++ (' ' :: joinWords (r :: rs)) from rfl]
      rw [pyWordsAux_append w [] (' ' :: joinWords (r :: rs)) hw.2]
      simp only [List.append_nil]
      have hsp : (' ' : Char).isWhitespace = true := by decide
      simp only [pyWordsAux, hsp, if_true]
      rw [if_neg (by simpa using hw.1)]
      rw [List.reverse_reverse]
      exact congrArg (w :: ·) (ih (fun v hv => h v (by simp [hv])))

/-- A nonempty whitespace-free list has a non-whitespace head. -/
theorem headNotWs_of_wsfree (w : List Char) (hne : w ≠ [])
    (hwf : ∀ c ∈ w, c.isWhitespace = false) : headNotWs w = true := by
  cases w with
  | nil => exact absurd rfl hne
  | cons c r => simp [headNotWs, hwf c (by simp)]

/-- `headNotWs` only looks at the first block of an append. -/
theorem headNotWs_append (x y : List Char) (h : x ≠ []) :
    headNotWs (x ++ y) = headNotWs x := by
  cases x with
  | nil => exact absurd rfl h
  | cons c r => rfl

/-- `lastNotWs` only looks at the last block of an append. -/
theorem lastNotWs_append (x y : List Char) (h : y ≠ []) :
    lastNotWs (x ++ y) = lastNotWs y := by
  unfold lastNotWs
  rw [List.reverse_append]
  exact headNotWs_append y.reverse x.reverse (by simpa using h)

/-- `lastNotWs` ignores a prepended character when the tail is nonempty. -/
theorem lastNotWs_cons (c : Char) (l : List Char) (h : l ≠ []) :
    lastNotWs (c :: l) = lastNotWs l := by
  simpa using lastNotWs_append [c] l h

/-- The tail of a `noDoubleWs` list is `noDoubleWs`. -/
theorem noDoubleWs_tail (c : Char) (l : List Char)
    (h : noDoubleWs (c :: l) = true) : noDoubleWs l = true := by
  cases l with
  | nil => rfl
  | cons d r =>
    simp only [noDoubleWs, Bool.and_eq_true] at h
    exact h.2

/-- Prepending any character before a non-whitespace head keeps
`noDoubleWs`. -/
theorem noDoubleWs_cons_of (c : Char) (l : List Char)
    (hh : headNotWs l = true) (hd : noDoubleWs l = true) :
    noDoubleWs (c :: l) = true := by
  cases l with
  | nil => rfl
  | cons d r =>
    have hdws : d.isWhitespace = false := by simpa [headNotWs] using hh
    simp only [noDoubleWs, Bool.and_eq_true]
    exact ⟨by simp [hdws], hd⟩

/-- Prepending a non-whitespace character keeps `noDoubleWs`. -/
theorem noDoubleWs_cons_of_notws (c : Char) (l : List Char)
    (hc : c.isWhitespace = false) (hd : noDoubleWs l = true) :
    noDoubleWs (c :: l) = true := by
  cases l with
  | nil => rfl
  | cons d r =>
    simp only [noDoubleWs, Bool.and_eq_true]
    exact ⟨by simp [hc], hd⟩

/-- Prepending a whitespace-free block keeps `noDoubleWs`. -/
theorem noDoubleWs_append_wsfree (w l : List Char)
    (hw : ∀ c ∈ w, c.isWhitespace = false) (hl : noDoubleWs l = true) :
    noDoubleWs (w ++ l) = true := by
  induction w with
  | nil => simpa
  | cons c w' ih =>
    exact noDoubleWs_cons_of_notws c _ (hw c (by simp))
      (ih (fun x hx => hw x (by simp [hx])))

/-- Appending one non-whitespace character keeps `noDoubleWs`. -/
theorem noDoubleWs_concat (l : List Char) (c : Char)
    (hc : c.isWhitespace = false) (hl : noDoubleWs l = true) :
    noDoubleWs (l ++ [c]) = true := by
  induction l with
  | nil => rfl
  | cons a r ih =>
    cases r with
    | nil => simp [noDoubleWs, hc]
    | cons b r2 =>
      simp only [List.cons_append, noDoubleWs, Bool.and_eq_true] at hl ⊢
      exact ⟨hl.1, ih hl.2⟩

/-- A space-join headed by a nonempty word is nonempty. -/
theorem joinWords_ne_nil (w : List Char) (ws2 : List (List Char)) (h : w ≠ []) :
    joinWords (w :: ws2) ≠ [] := by
  cases ws2 with
  | nil => exact h
  | cons r rs => simp [joinWords]

/-- The head of a space-join of good words is not whitespace. -/
theorem headNotWs_joinWords (w : List Char) (ws2 : List (List Char))
    (hne : w ≠ []) (hwf : ∀ c ∈ w, c.isWhitespace = false) :
    headNotWs (joinWords (w :: ws2)) = true := by
  cases ws2 with
  | nil => exact headNotWs_of_wsfree w hne hwf
  | cons r rs =>
    rw [joinWords_cons _ _ (by simp), headNotWs_append _ _ hne]
    exact headNotWs_of_wsfree w hne hwf

/-- The last character of a space-join of good words is not whitespace. -/
theorem lastNotWs_joinWords (ws2 : List (List Char))
    (h : ∀ w ∈ ws2, w ≠ [] ∧ ∀ c ∈ w, c.isWhitespace = false)
    (hne : ws2 ≠ []) : lastNotWs (joinWords ws2) = true := by
  induction ws2 with
  | nil => exact absurd rfl hne
  | cons w rest ih =>
    cases rest with
    | nil =>
      have hw := h w (by simp)
      show lastNotWs w = true
      unfold lastNotWs
      refine headNotWs_of_wsfree w.reverse (by simpa using hw.1) ?_
      intro c hc
      exact hw.2 c (List.mem_reverse.mp hc)
    | cons r rs =>
      rw [joinWords_cons _ _ (by simp)]
      rw [lastNotWs_append w _ (by simp)]
      rw [lastNotWs_cons _ _ (joinWords_ne_nil r rs (h r (by simp)).1)]
      exact ih (fun v hv => h v (by simp [hv])) (by simp)

/-- A space-join of good words has no adjacent whitespace pair. -/
theorem noDoubleWs_joinWords (ws2 : List (List Char))
    (h : ∀ w ∈ ws2, w ≠ [] ∧ ∀ c ∈ w, c.isWhitespace = false) :
    noDoubleWs (joinWords ws2) = true := by
  induction ws2 with
  | nil => rfl
  | cons w rest ih =>
    cases rest with
    | nil =>
      have := noDoubleWs_append_wsfree w [] (h w (by simp)).2 (by rfl)
      simpa using this
    | cons r rs =>
      rw [joinWords_cons _ _ (by simp)]
      refine noDoubleWs_append_wsfree w _ (h w (by simp)).2 ?_
      refine noDoubleWs_cons_of ' ' _ ?_ (ih (fun v hv => h v (by simp [hv])))
      exact headNotWs_joinWords r rs (h r (by simp)).1 (h r (by simp)).2

/-- `dropWhile isWhitespace` is the identity on a non-whitespace head. -/
theorem dropWhile_headNotWs (l : List Char) (h : headNotWs l = true) :
    l.dropWhile Char.isWhitespace = l := by
  cases l with
  | nil => rfl
  | cons c r =>
    have hc : c.isWhitespace = false := by simpa [headNotWs] using h
    simp [List.dropWhile_cons, hc]

/-- `strip()` is the identity when neither end is whitespace. -/
theorem pyStripChars_id (l : List Char) (h1 : headNotWs l = true)
    (h2 : lastNotWs l = true) : pyStripChars l = l := by
  unfold pyStripChars
  rw [dropWhile_headNotWs l h1,
    dropWhile_headNotWs l.reverse (by simpa [lastNotWs] using h2),
    List.reverse_reverse]

/-- `capitalizeFirst` keeps nonemptiness. -/
theorem capitalizeFirst_ne_nil (l : List Char) (h : l ≠ []) :
    capitalizeFirst l ≠ [] := by
  cases l with
  | nil => exact absurd rfl h
  | cons c r => simp [capitalizeFirst]

/-- `capitalizeFirst` keeps whitespace-freeness. -/
theorem capitalizeFirst_wsfree (l : List Char)
    (h : ∀ c ∈ l, c.isWhitespace = false) :
    ∀ c ∈ capitalizeFirst l, c.isWhitespace = false := by
  cases l with
  | nil => simp [capitalizeFirst]
  | cons c r =>
    intro x hx
    rcases List.mem_cons.mp hx with h1 | h1
    · subst h1
      rw [capHead_ws]
      exact h c (by simp)
    · exact h x (by simp [h1])

/-- `capitalizeFirst` keeps a non-whitespace head. -/
theorem headNotWs_capitalizeFirst (l : List Char) (h : headNotWs l = true) :
    headNotWs (capitalizeFirst l) = true := by
  cases l with
  | nil => rfl
  | cons c r =>
    simp only [capitalizeFirst, headNotWs, capHead_ws]
    simpa [headNotWs] using h

/-- `capitalizeFirst` keeps `noDoubleWs`. -/
theorem noDoubleWs_capitalizeFirst (l : List Char) (h : noDoubleWs l = true) :
    noDoubleWs (capitalizeFirst l) = true := by
  cases l with
  | nil => rfl
  | cons c r =>
    cases r with
    | nil => rfl
    | cons d r2 =>
      simp only [capitalizeFirst, noDoubleWs, Bool.and_eq_true, capHead_ws] at h ⊢
      exact h

/-- `capitalizeFirst` keeps a non-whitespace last character. -/
theorem lastNotWs_capitalizeFirst (l : List Char) (h : lastNotWs l = true) :
    lastNotWs (capitalizeFirst l) = true := by
  cases l with
  | nil => rfl
  | cons c r =>
    cases r with
    | nil =>
      simp only [capitalizeFirst]
      simpa [lastNotWs, headNotWs, capHead_ws] using h
    | cons d r2 =>
      simp only [capitalizeFirst]
      rw [lastNotWs_cons _ _ (by simp)]
      rw [lastNotWs_cons _ _ (by simp)] at h
      exact h

/-- `getLast?` of an append with nonempty right block. -/
theorem getLast?_append_right (a b : List Char) (h : b ≠ []) :
    (a ++ b).getLast? = b.getLast? := by
  rw [List.getLast?_append]
  cases hb : b.getLast? with
  | none => exact absurd (List.getLast?_eq_none_iff.mp hb) h
  | some c => rfl

/-- Unfolding of `endPunct` when the last character is known. -/
theorem endPunct_of_getLast (l : List Char) (c : Char) (hg : l.getLast? = some c) :
    endPunct l =
      if (c = '.' || c = '!' || c = '?') = true then l else l ++ ['.'] := by
  unfold endPunct
  rw [hg]

/-- `endPunct` either fixes its argument or appends a single full stop. -/
theorem endPunct_cases (l : List Char) :
    endPunct l = l ∨ endPunct l = l ++ ['.'] := by
  cases hg : l.getLast? with
  | none =>
    left
    unfold endPunct
    rw [hg]
  | some c =>
    rw [endPunct_of_getLast l c hg]
    by_cases hp : (c = '.' || c = '!' || c = '?') = true
    · exact Or.inl (if_pos hp)
    · exact Or.inr (if_neg hp)

/-- `endPunct` keeps nonemptiness. -/
theorem endPunct_ne_nil (l : List Char) (h : l ≠ []) : endPunct l ≠ [] := by
  rcases endPunct_cases l with he | he <;> rw [he] <;> simp [h]

/-- `endPunct` keeps a non-whitespace head. -/
theorem headNotWs_endPunct (l : List Char) (hne : l ≠ [])
    (h : headNotWs l = true) : headNotWs (endPunct l) = true := by
  rcases endPunct_cases l with he | he <;> rw [he]
  · exact h
  · rw [headNotWs_append _ _ hne]
    exact h

/-- `endPunct` keeps `noDoubleWs`. -/
theorem noDoubleWs_endPunct (l : List Char) (h : noDoubleWs l = true) :
    noDoubleWs (endPunct l) = true := by
  rcases endPunct_cases l with he | he <;> rw [he]
  · exact h
  · exact noDoubleWs_concat l '.' (by decide) h

/-- `endPunct` keeps a non-whitespace last character. -/
theorem lastNotWs_endPunct (l : List Char) (h : lastNotWs l = true) :
    lastNotWs (endPunct l) = true := by
  rcases endPunct_cases l with he | he <;> rw [he]
  · exact h
  · rw [lastNotWs_append _ _ (by simp)]
    decide

/-- After `endPunct`, a nonempty list ends in `.`, `!` or `?`. -/
theorem endPunct_last_punct (l : List Char) (hne : l ≠ []) :
    (endPunct l).getLast?.all (fun c => c = '.' || c = '!' || c = '?') = true := by
  cases hg : l.getLast? with
  | none => exact absurd (List.getLast?_eq_none_iff.mp hg) hne
  | some c =>
    rw [endPunct_of_getLast l c hg]
    by_cases hp : (c = '.' || c = '!' || c = '?') = true
    · rw [if_pos hp, hg]
      simpa using hp
    · rw [if_neg hp, List.getLast?_concat]
      decide

/-- `endPunct` is idempotent. -/
theorem endPunct_idem (l : List Char) : endPunct (endPunct l) = endPunct l := by
  cases hg : l.getLast? with
  | none =>
    have hl : l = [] := List.getLast?_eq_none_iff.mp hg
    subst hl
    rfl
  | some c =>
    by_cases hp : (c = '.' || c = '!' || c = '?') = true
    · have h1 : endPunct l = l := by
        rw [endPunct_of_getLast l c hg, if_pos hp]
      rw [h1]
      exact h1
    · have h1 : endPunct l = l ++ ['.'] := by
        rw [endPunct_of_getLast l c hg, if_neg hp]
      rw [h1, endPunct_of_getLast (l ++ ['.']) '.' (List.getLast?_concat l)]
      rw [if_pos (by decide)]

/-- `endPunct` distributes over an append with nonempty right block. -/
theorem endPunct_append (a b : List Char) (h : b ≠ []) :
    endPunct (a ++ b) = a ++ endPunct b := by
  cases hg : b.getLast? with
  | none => exact absurd (List.getLast?_eq_none_iff.mp hg) h
  | some c =>
    rw [endPunct_of_getLast b c hg,
      endPunct_of_getLast (a ++ b) c (by rw [getLast?_append_right a b h, hg])]
    by_cases hp : (c = '.' || c = '!' || c = '?') = true
    · rw [if_pos hp, if_pos hp]
    · rw [if_neg hp, if_neg hp]
      simp

/-- `endPunct` on a nonempty list keeps the head character. -/
theorem endPunct_cons_head (c : Char) (r : List Char) :
    ∃ r2, endPunct (c :: r) = c :: r2 := by
  rcases endPunct_cases (c :: r) with he | he
  · exact ⟨r, he⟩
  · exact ⟨r ++ ['.'], by rw [he]; rfl⟩

/-- `capitalizeFirst` only touches the first word of a space-join. -/
theorem capitalizeFirst_joinWords (w : List Char) (ws2 : List (List Char))
    (h : w ≠ []) :
    capitalizeFirst (joinWords (w :: ws2)) =
      joinWords (capitalizeFirst w :: ws2) := by
  cases w with
  | nil => exact absurd rfl h
  | cons c r =>
    cases ws2 with
    | nil => rfl
    | cons a as =>
      rw [joinWords_cons (c :: r) (a :: as) (by simp)]
      rw [joinWords_cons (capitalizeFirst (c :: r)) (a :: as) (by simp)]
      rfl

/-- `mapLastWord` keeps nonemptiness of the word list. -/
theorem mapLastWord_ne_nil (ws2 : List (List Char)) (h : ws2 ≠ []) :
    mapLastWord ws2 ≠ [] := by
  cases ws2 with
  | nil => exact absurd rfl h
  | cons w rest =>
    cases rest with
    | nil => simp [mapLastWord]
    | cons a as => simp [mapLastWord]

/-- `mapLastWord` keeps the good-word property. -/
theorem mapLastWord_words (ws2 : List (List Char))
    (h : ∀ w ∈ ws2, w ≠ [] ∧ ∀ c ∈ w, c.isWhitespace = false) :
    ∀ w ∈ mapLastWord ws2, w ≠ [] ∧ ∀ c ∈ w, c.isWhitespace = false := by
  induction ws2 with
  | nil => simp [mapLastWord]
  | cons w rest ih =>
    cases rest with
    | nil =>
      intro v hv
      simp only [mapLastWord, List.mem_singleton] at hv
      subst hv
      have hw := h w (by simp)
      refine ⟨endPunct_ne_nil w hw.1, ?_⟩
      intro c hc
      rcases endPunct_cases w with he | he <;> rw [he] at hc
      · exact hw.2 c hc
      · rcases List.mem_append.mp hc with h2 | h2
        · exact hw.2 c h2
        · simp only [List.mem_singleton] at h2
          subst h2
          decide
    | cons a as =>
      intro v hv
      rcases List.mem_cons.mp hv with h2 | h2
      · subst h2
        exact h v (by simp)
      · exact ih (fun x hx => h x (by simp [hx])) v h2

/-- `mapLastWord` is idempotent. -/
theorem mapLastWord_idem (ws2 : List (List Char)) :
    mapLastWord (mapLastWord ws2) = mapLastWord ws2 := by
  induction ws2 with
  | nil => rfl
  | cons w rest ih =>
    cases rest with
    | nil => simp [mapLastWord, endPunct_idem]
    | cons a as =>
      show mapLastWord (w :: mapLastWord (a :: as)) = w :: mapLastWord (a :: as)
      have hne := mapLastWord_ne_nil (a :: as) (by simp)
      cases hm : mapLastWord (a :: as) with
      | nil => exact absurd hm hne
      | cons b bs =>
        show w :: mapLastWord (b :: bs) = w :: b :: bs
        rw [← hm, ih, hm]

/-- `endPunct` on a space-join rewrites only the last word. -/
theorem endPunct_joinWords (ws2 : List (List Char))
    (h : ∀ w ∈ ws2, w ≠ []) (hne : ws2 ≠ []) :
    endPunct (joinWords ws2) = joinWords (mapLastWord ws2) := by
  induction ws2 with
  | nil => exact absurd rfl hne
  | cons w rest ih =>
    cases rest with
    | nil => rfl
    | cons a as =>
      rw [joinWords_cons _ _ (by simp)]
      have hJ : joinWords (a :: as) ≠ [] := joinWords_ne_nil a as (h a (by simp))
      rw [show w ++ ' ' :: joinWords (a :: as) =
        (w ++ [' ']) ++ joinWords (a :: as) by simp]
      rw [endPunct_append _ _ hJ]
      rw [ih (fun v hv => h v (by simp [hv])) (by simp)]
      rw [show mapLastWord (w :: a :: as) = w :: mapLastWord (a :: as) from rfl]
      rw [joinWords_cons _ _ (mapLastWord_ne_nil _ (by simp))]
      simp

/-- `_clean_transcription` yields the empty list on all-whitespace input
(the join of zero words is empty, and every later step fixes the empty
list). -/
theorem cleanList_empty_words (l : List Char) (hwds : pyWords l = []) :
    cleanList l = [] := by
  by_cases hl : l = []
  · subst hl
    rfl
  · unfold cleanList
    rw [if_neg hl, hwds]
    rfl

/-- Word-level description of `_clean_transcription` on input with at least
one word: capitalize the first word, punctuate the last, join by single
spaces. -/
theorem cleanList_words_eq (l : List Char) (w : List Char)
    (rest : List (List Char)) (hwds : pyWords l = w :: rest) :
    cleanList l = joinWords (mapLastWord (capitalizeFirst w :: rest)) := by
  have hl : l ≠ [] := by
    intro h
    rw [h] at hwds
    simp [pyWords, pyWordsAux] at hwds
  have hprops : ∀ v ∈ w :: rest, v ≠ [] ∧ ∀ c ∈ v, c.isWhitespace = false := by
    intro v hv
    exact pyWords_words l v (hwds ▸ hv)
  have hw := hprops w (by simp)
  unfold cleanList
  rw [if_neg hl, hwds]
  rw [pyStripChars_id _ (headNotWs_joinWords w rest hw.1 hw.2)
    (lastNotWs_joinWords (w :: rest) hprops (by simp))]
  rw [capitalizeFirst_joinWords w rest hw.1]
  refine endPunct_joinWords (capitalizeFirst w :: rest) ?_ (by simp)
  intro v hv
  rcases List.mem_cons.mp hv with h2 | h2
  · subst h2
    exact capitalizeFirst_ne_nil w hw.1
  · exact (hprops v (by simp [h2])).1

/-- The output words of `_clean_transcription` are nonempty and
whitespace-free. -/
theorem cleanList_good_words (w : List Char) (rest : List (List Char))
    (hprops : ∀ v ∈ w :: rest, v ≠ [] ∧ ∀ c ∈ v, c.isWhitespace = false) :
    ∀ v ∈ mapLastWord (capitalizeFirst w :: rest),
      v ≠ [] ∧ ∀ c ∈ v, c.isWhitespace = false := by
  refine mapLastWord_words _ ?_
  intro v hv
  rcases List.mem_cons.mp hv with h2 | h2
  · subst h2
    have hw := hprops w (by simp)
    exact ⟨capitalizeFirst_ne_nil w hw.1, capitalizeFirst_wsfree w hw.2⟩
  · exact hprops v (by simp [h2])

/-- The output word list starts with a `capHead`-headed word. -/
theorem cleanList_first_word (c : Char) (r : List Char)
    (rest : List (List Char)) :
    ∃ t rest2, mapLastWord (capitalizeFirst (c :: r) :: rest) =
      (capHead c :: t) :: rest2 := by
  cases rest with
  | nil =>
    obtain ⟨r2, he⟩ := endPunct_cons_head (capHead c) r
    refine ⟨r2, [], ?_⟩
    show [endPunct (capitalizeFirst (c :: r))] = [capHead c :: r2]
    rw [show capitalizeFirst (c :: r) = capHead c :: r from rfl, he]
  | cons a as =>
    exact ⟨r, mapLastWord (a :: as), rfl⟩

/-- `_clean_transcription` is idempotent. -/
theorem cleanList_idem (l : List Char) : cleanList (cleanList l) = cleanList l := by
  cases hwds : pyWords l with
  | nil =>
    rw [cleanList_empty_words l hwds]
    rfl
  | cons w rest =>
    have hprops : ∀ v ∈ w :: rest, v ≠ [] ∧ ∀ c ∈ v, c.isWhitespace = false := by
      intro v hv
      exact pyWords_words l v (hwds ▸ hv)
    have hw := hprops w (by simp)
    obtain ⟨c, r, hwcr⟩ : ∃ c r, w = c :: r := by
      cases w with
      | nil => exact absurd rfl hw.1
      | cons c r => exact ⟨c, r, rfl⟩
    subst hwcr
    have hA := cleanList_words_eq l (c :: r) rest hwds
    have hprops2 := cleanList_good_words (c :: r) rest hprops
    obtain ⟨t, rest2, hW2⟩ := cleanList_first_word c r rest
    have hwords_out : pyWords (cleanList l) = (capHead c :: t) :: rest2 := by
      rw [hA, pyWords_joinWords _ hprops2, hW2]
    have hA2 := cleanList_words_eq (cleanList l) (capHead c :: t) rest2 hwords_out
    have hcap2 : capitalizeFirst (capHead c :: t) = capHead c :: t := by
      show capHead (capHead c) :: t = capHead c :: t
      rw [capHead_idem]
    rw [hcap2, ← hW2, mapLastWord_idem] at hA2
    rw [hA2, ← hA]

/-- Shape of `_clean_transcription` output on input with a non-whitespace
character: nonempty, tidy whitespace, non-lowercase first character and a
sentence-final punctuation mark. -/
theorem cleanList_shape (l : List Char) (hex : ∃ c ∈ l, c.isWhitespace = false) :
    cleanList l ≠ [] ∧
    headNotWs (cleanList l) = true ∧
    lastNotWs (cleanList l) = true ∧
    noDoubleWs (cleanList l) = true ∧
    ((cleanList l).head?.all (fun c => !pyIsLower c)) = true ∧
    ((cleanList l).getLast?.all (fun c => c = '.' || c = '!' || c = '?')) = true := by
  have hwne : pyWords l ≠ [] := by
    intro h
    rw [pyWords_eq_nil_iff] at h
    obtain ⟨c, hc, hcf⟩ := hex
    rw [h c hc] at hcf
    exact Bool.noConfusion hcf
  obtain ⟨w, rest, hwds⟩ : ∃ w rest, pyWords l = w :: rest := by
    cases h : pyWords l with
    | nil => exact absurd h hwne
    | cons w rest => exact ⟨w, rest, rfl⟩
  have hl : l ≠ [] := by
    intro h
    rw [h] at hwds
    simp [pyWords, pyWordsAux] at hwds
  have hprops : ∀ v ∈ w :: rest, v ≠ [] ∧ ∀ c ∈ v, c.isWhitespace = false := by
    intro v hv
    exact pyWords_words l v (hwds ▸ hv)
  have hw := hprops w (by simp)
  obtain ⟨c, r, hwcr⟩ : ∃ c r, w = c :: r := by
    cases w with
    | nil => exact absurd rfl hw.1
    | cons c r => exact ⟨c, r, rfl⟩
  subst hwcr
  have hA := cleanList_words_eq l (c :: r) rest hwds
  have hprops2 := cleanList_good_words (c :: r) rest hprops
  obtain ⟨t, rest2, hW2⟩ := cleanList_first_word c r rest
  have hprops2b : ∀ v ∈ (capHead c :: t) :: rest2,
      v ≠ [] ∧ ∀ x ∈ v, x.isWhitespace = false := by
    rw [← hW2]
    exact hprops2
  have hfirst := hprops2b (capHead c :: t) (by simp)
  have hout : cleanList l = joinWords ((capHead c :: t) :: rest2) := by
    rw [hA, hW2]
  refine ⟨?_, ?_, ?_, ?_, ?_, ?_⟩
  · rw [hout]
    exact joinWords_ne_nil _ _ (by simp)
  · rw [hout]
    exact headNotWs_joinWords _ _ (by simp) hfirst.2
  · rw [hout]
    exact lastNotWs_joinWords _ hprops2b (by simp)
  · rw [hout]
    exact noDoubleWs_joinWords _ hprops2b
  · obtain ⟨tl, htl⟩ : ∃ tl, cleanList l = capHead c :: tl := by
      rw [hout]
      cases rest2 with
      | nil => exact ⟨t, rfl⟩
      | cons b bs =>
        rw [joinWords_cons _ _ (by simp)]
        exact ⟨t ++ ' ' :: joinWords (b :: bs), rfl⟩
    rw [htl]
    simp [capHead_notLower]
  · have hYeq : cleanList l =
        endPunct (capitalizeFirst (pyStripChars (joinWords (pyWords l)))) := by
      unfold cleanList
      rw [if_neg hl]
    have hYne : capitalizeFirst (pyStripChars (joinWords (pyWords l))) ≠ [] := by
      rw [hwds]
      rw [pyStripChars_id _ (headNotWs_joinWords _ _ (by simp) hw.2)
        (lastNotWs_joinWords _ hprops (by simp))]
      exact capitalizeFirst_ne_nil _ (joinWords_ne_nil _ _ hw.1)
    rw [hYeq]
    exact endPunct_last_punct _ hYne

/-- Claim C10 (amended: all-whitespace input yields the empty string, not
`"."`): `_clean_transcription` is idempotent; on input with at least one
non-whitespace character its output is nonempty with no leading, trailing
or repeated whitespace, a first character that is not a lowercase letter,
and a final `.`, `!` or `?`; empty and all-whitespace inputs both yield the
empty string. -/
theorem clean_transcription_idempotent_shape :
    (∀ s : String,
      clean_transcription (clean_transcription s) = clean_transcription s) ∧
    (∀ s : String, (∃ c ∈ s.data, c.isWhitespace = false) →
      (clean_transcription s).data ≠ [] ∧
      headNotWs (clean_transcription s).data = true ∧
      lastNotWs (clean_transcription s).data = true ∧
      noDoubleWs (clean_transcription s).data = true ∧
      ((clean_transcription s).data.head?.all (fun c => !pyIsLower c)) = true ∧
      ((clean_transcription s).data.getLast?.all
        (fun c => c = '.' || c = '!' || c = '?')) = true) ∧
    (∀ s : String, s.data ≠ [] → (∀ c ∈ s.data, c.isWhitespace = true) →
      clean_transcription s = "") ∧
    clean_transcription "" = "" := by
  refine ⟨?_, ?_, ?_, rfl⟩
  · intro s
    show String.mk (cleanList (String.mk (cleanList s.data)).data) =
      String.mk (cleanList s.data)
    exact congrArg String.mk (cleanList_idem s.data)
  · intro s hex
    exact cleanList_shape s.data hex
  · intro s _ hws
    show String.mk (cleanList s.data) = ""
    rw [cleanList_empty_words s.data (by rw [pyWords_eq_nil_iff]; exact hws)]

/-- Witness for claim C10 at the concrete input `"hej"`. -/
theorem clean_transcription_idempotent_shape_witness :
    (clean_transcription "hej").data ≠ [] :=
  (clean_transcription_idempotent_shape.2.1 "hej" ⟨'h', by decide, by decide⟩).1

/-- Claim C10 counterexample: the all-whitespace input `" "` is mapped to
the empty string, not to `"."` as the claim states. -/
theorem clean_transcription_whitespace_counterexample :
    clean_transcription " " = "" ∧ clean_transcription " " ≠ "." := by
  constructor
  · decide
  · decide
